import Mathlib

/-!
# Verification of the quart-rate-limiter GCRA rate limiter

A shallow embedding of `src/quart_rate_limiter/__init__.py` and
`src/quart_rate_limiter/store.py`.  Instants (Python `datetime`) and
durations (`timedelta.total_seconds()`) are modelled as rationals;
Python `int()` truncation is `pyInt`; the in-memory TAT store is an
association list; coroutine-valued configuration hooks (`key_function`,
`skip_function`) are modelled by the value they would return.
-/

namespace QuartRateLimiter

/-- Python `int()` applied to a real quantity: truncation toward zero
(for nonnegative `q` this is the floor, for negative `q` the ceiling,
written here as `-⌊-q⌋`). -/
def pyInt (q : ℚ) : ℤ := if 0 ≤ q then q.floor else -(Rat.floor (-q))

/-- The `RateLimit` dataclass: `count`, `period` (as
`period.total_seconds()`), and the optional per-limit `key_function` /
`skip_function`, each modelled by the value the coroutine would return. -/
structure RateLimit where
  count : ℕ
  period : ℚ
  keyFunction : Option String := none
  skipFunction : Option Bool := none
deriving DecidableEq, Repr

/-- `RateLimit.inverse`: `self.period.total_seconds() / self.count`. -/
def RateLimit.inverse (rl : RateLimit) : ℚ := rl.period / rl.count

/-- `RateLimit.key`: `f"{self.count}-{self.period.total_seconds()}"`,
with Lean `toString` standing in for Python `str`. -/
def RateLimit.key (rl : RateLimit) : String :=
  toString rl.count ++ "-" ++ toString rl.period

/-- `MemoryStore._tats`: a dict from keys to TATs, as an association
list where `set` prepends (the first hit wins on lookup). -/
abbrev Store := List (String × ℚ)

/-- `MemoryStore.get`: the TAT for `key` if present, else `default`. -/
def Store.get (s : Store) (key : String) (default : ℚ) : ℚ :=
  (s.lookup key).getD default

/-- `MemoryStore.set`: bind `key` to `tat`. -/
def Store.set (s : Store) (key : String) (tat : ℚ) : Store :=
  (key, tat) :: s

/-- A view function together with the two attributes the library reads:
`_quart_rate_limiter_exempt` and `_quart_rate_limiter_limits`.
`limits = none` models the attribute being absent (`getattr` default). -/
structure ViewFunc where
  exempt : Bool := false
  limits : Option (List RateLimit) := none
deriving DecidableEq, Repr

/-- A blueprint carrying the optional `_quart_rate_limiter_limits`
attribute. -/
structure BlueprintObj where
  limits : Option (List RateLimit) := none
deriving DecidableEq, Repr

/-- The `RateLimiter` instance state: `current_app.import_name`, the
app-level `key_function` / `skip_function` (modelled by their return
values), `_default_rate_limits`, and `QUART_RATE_LIMITER_ENABLED`. -/
structure Limiter where
  appName : String
  keyFunction : String
  skipFunction : Option Bool := none
  defaultLimits : List RateLimit := []
  enabled : Bool := true
deriving DecidableEq, Repr

/-- `getattr(blueprint, QUART_RATE_LIMITER_LIMITS_ATTRIBUTE, [])` with
`blueprint` possibly `None`. -/
def bpLimits : Option BlueprintObj → List RateLimit
  | none => []
  | some b => b.limits.getD []

/-- `RateLimiter._get_limits_for_view_function`.  In Python,
`getattr(view_func, ..., [])` returns the attached list object itself
when the attribute is present, and the subsequent `extend` calls mutate
it in place; the second component of the result is the (possibly
mutated) view function that the caller's `view_func` now refers to. -/
def getLimitsForViewFunction (l : Limiter) (vf : Option ViewFunc)
    (bp : Option BlueprintObj) : List RateLimit × Option ViewFunc :=
  match vf with
  | none => (bpLimits bp ++ l.defaultLimits, none)
  | some v =>
    if v.exempt then ([], some v)
    else
      match v.limits with
      | none => (bpLimits bp ++ l.defaultLimits, some v)
      | some attached =>
        let resolved := attached ++ bpLimits bp ++ l.defaultLimits
        (resolved, some { v with limits := some resolved })

/-- `f"{endpoint}"` where `endpoint` may be Python `None`. -/
def endpointStr : Option String → String
  | some e => e
  | none => "None"

/-- `RateLimiter._create_key`'s composed string
`f"{app_name}-{endpoint}-{rate_limit.key}-{key}"`. -/
def createKey (appName endpoint limitKey callerId : String) : String :=
  appName ++ "-" ++ endpoint ++ "-" ++ limitKey ++ "-" ++ callerId

/-- `rate_limit.key_function or self.key_function`, applied: the caller
identity used in the store key. -/
def callerId (l : Limiter) (rl : RateLimit) : String :=
  rl.keyFunction.getD l.keyFunction

/-- `RateLimiter._create_key` for a given endpoint and limit. -/
def createKeyFull (l : Limiter) (endpoint : Option String) (rl : RateLimit) : String :=
  createKey l.appName (endpointStr endpoint) rl.key (callerId l rl)

/-- `RateLimiter._should_skip`: `rate_limit.skip_function or
self.skip_function`, defaulting to `False` when both are `None`. -/
def shouldSkip (l : Limiter) (rl : RateLimit) : Bool :=
  match rl.skipFunction with
  | some b => b
  | none => l.skipFunction.getD false

/-- The per-limit body of `RateLimiter._raise_on_rejection`: with
`tat = max(store.get(key, now), now)`, reject when
`tat - now > period - inverse` and return the signalled
`int(((tat - max_interval) - now))`; `none` means the limit admits. -/
def checkRetry (st : Store) (key : String) (rl : RateLimit) (now : ℚ) : Option ℤ :=
  let tat := max (st.get key now) now
  let separation := tat - now
  let maxInterval := rl.period - rl.inverse
  if separation > maxInterval then some (pyInt ((tat - maxInterval) - now)) else none

/-- `RateLimiter._raise_on_rejection`: check each limit in list order
and raise (return) at the first rejection; the store is never written. -/
def raiseOnRejection (l : Limiter) (st : Store) (endpoint : Option String)
    (rls : List RateLimit) (now : ℚ) : Option ℤ :=
  match rls with
  | [] => none
  | rl :: rest =>
    match checkRetry st (createKeyFull l endpoint rl) rl now with
    | some r => some r
    | none => raiseOnRejection l st endpoint rest now

/-- The per-limit body of `RateLimiter._update_limits`:
`tat = max(store.get(key, now), now)`;
`new_tat = max(tat, now) + inverse`; `store.set(key, new_tat)`. -/
def commitOne (st : Store) (key : String) (rl : RateLimit) (now : ℚ) : Store :=
  let tat := max (st.get key now) now
  st.set key (max tat now + rl.inverse)

/-- `RateLimiter._update_limits`: commit every limit in order. -/
def updateLimits (l : Limiter) (st : Store) (endpoint : Option String)
    (rls : List RateLimit) (now : ℚ) : Store :=
  rls.foldl (fun s rl => commitOne s (createKeyFull l endpoint rl) rl now) st

/-- `RateLimiter._before_request`.  `vf` is
`current_app.view_functions.get(endpoint)` and `bp` is
`current_app.blueprints.get(request.blueprint)`.  `now1` and `now2` are
the values of the two separate `datetime.utcnow()` calls made by
`_raise_on_rejection` and `_update_limits`.  The result is the raised
`RateLimitExceeded.retry_after` (or `none`), the store after the hook,
and the (possibly mutated) view function. -/
def beforeRequest (l : Limiter) (st : Store) (endpoint : Option String)
    (vf : Option ViewFunc) (bp : Option BlueprintObj) (now1 now2 : ℚ) :
    Option ℤ × Store × Option ViewFunc :=
  if l.enabled then
    match vf with
    | none => (none, st, none)
    | some v =>
      let resolved := getLimitsForViewFunction l (some v) bp
      let rls := resolved.1.filter (fun rl => !shouldSkip l rl)
      match raiseOnRejection l st endpoint rls now1 with
      | some r => (some r, st, resolved.2)
      | none => (none, updateLimits l st endpoint rls now2, resolved.2)
  else (none, st, vf)

/-- `min(rate_limits, key=lambda rl: rl.period.total_seconds())`:
Python `min` keeps the first of equal minima. -/
def minByPeriod : List RateLimit → Option RateLimit
  | [] => none
  | rl :: rest =>
    some (rest.foldl (fun best x => if x.period < best.period then x else best) rl)

/-- `RateLimiter._after_request`: the three `RateLimit-*` headers
(Limit, Remaining, Reset) set on the response, or `none` when the
`min` over an empty limit list raises `ValueError`, together with the
(possibly mutated) view function. -/
def afterRequest (l : Limiter) (st : Store) (endpoint : Option String)
    (vf : Option ViewFunc) (bp : Option BlueprintObj) (now : ℚ) :
    Option (ℕ × ℤ × ℤ) × Option ViewFunc :=
  if l.enabled then
    let resolved := getLimitsForViewFunction l vf bp
    match minByPeriod resolved.1 with
    | none => (none, resolved.2)
    | some m =>
      let key := createKeyFull l endpoint m
      let tat := max (st.get key now) now
      let separation := tat - now
      let remaining := pyInt ((m.period - separation) / m.inverse)
      (some (m.count, remaining, pyInt separation), resolved.2)
  else (none, vf)

/-- A `RateLimit` as the `rate_limit` / `limit_blueprint` argument
validation actually constructs it: Python's dataclass accepts `None`
for `count` and `period`, so both fields are optional here. -/
structure RawRateLimit where
  count : Option ℕ := none
  period : Option ℚ := none
  keyFunction : Option String := none
  skipFunction : Option Bool := none
deriving DecidableEq, Repr

/-- The argument-validation block shared verbatim by `rate_limit`
(lines 94-99) and `limit_blueprint` (lines 168-173): reject `limit` or
`period` together with `limits`, reject all absent, otherwise produce
the limit list to attach. -/
def rateLimitArgs (limit : Option ℕ) (period : Option ℚ) (keyF : Option String)
    (skipF : Option Bool) (limits : Option (List RawRateLimit)) :
    Except String (List RawRateLimit) :=
  if limit.isSome || period.isSome then
    if limits.isSome then Except.error "Please use either limit & period or limits"
    else Except.ok [{ count := limit, period := period, keyFunction := keyF,
                      skipFunction := skipF }]
  else
    match limits with
    | none => Except.error "No Rate Limit(s) set"
    | some ls => Except.ok ls

/-- Request-time use of a constructed limit:
`rate_limit.period.total_seconds() / rate_limit.count` (the `inverse`
property) raises on a `None` field, modelled as `none`. -/
def rawInverse (r : RawRateLimit) : Option ℚ :=
  match r.count, r.period with
  | some c, some p => some (p / c)
  | _, _ => none

/-- The `decorator` body inside `rate_limit`: read the attached list
(defaulting to `[]`), extend it with the new limits, and store it back
on the function. -/
def rateLimitDecorator (ls : List RateLimit) (vf : ViewFunc) : ViewFunc :=
  { vf with limits := some (vf.limits.getD [] ++ ls) }

/-! ## Helper lemmas -/

lemma ratFloor_eq_intFloor (q : ℚ) : q.floor = ⌊q⌋ := by
  rw [Rat.floor_def', Rat.floor_def]

lemma pyInt_eq_floor {q : ℚ} (h : 0 ≤ q) : pyInt q = ⌊q⌋ := by
  rw [pyInt, if_pos h, ratFloor_eq_intFloor]

lemma pyInt_nonneg {q : ℚ} (h : 0 ≤ q) : 0 ≤ pyInt q := by
  rw [pyInt_eq_floor h]
  exact Int.le_floor.mpr (by exact_mod_cast h)

lemma pyInt_le_self {q : ℚ} (h : 0 ≤ q) : (pyInt q : ℚ) ≤ q := by
  rw [pyInt_eq_floor h]
  exact Int.floor_le q

lemma Store.get_set_self (s : Store) (k : String) (v d : ℚ) :
    (s.set k v).get k d = v := by
  simp [Store.get, Store.set, List.lookup]

lemma max_max_right (a b : ℚ) : max (max a b) b = max a b :=
  max_eq_left (le_max_right a b)

/-! ## C1: the GCRA decision engine -/

/-- C1: for every key, limit and time, the check phase computes
`tat = max(store.get(key, now), now)` and rejects iff
`tat - now > period - period/count` (no mutation is possible: the check
only produces a verdict), and the commit phase persists
`max(max(store.get(key, now), now), now) + period/count`, so the stored
TAT afterwards reads back as exactly `tat + period/count`, one emission
interval ahead. -/
theorem gcra_check_commit_semantics (st : Store) (key : String) (rl : RateLimit) (now : ℚ) :
    (checkRetry st key rl now ≠ none ↔
      max (st.get key now) now - now > rl.period - rl.period / rl.count)
    ∧ commitOne st key rl now
        = st.set key (max (max (st.get key now) now) now + rl.period / rl.count)
    ∧ (commitOne st key rl now).get key now
        = max (st.get key now) now + rl.period / rl.count := by
  refine ⟨?_, rfl, ?_⟩
  · by_cases h : max (st.get key now) now - now > rl.period - rl.period / rl.count
    · simp [checkRetry, RateLimit.inverse, h]
    · simp [checkRetry, RateLimit.inverse, h]
  · rw [commitOne, Store.get_set_self, max_max_right, RateLimit.inverse]

/-! ## C4: the signalled Retry-After value -/

/-- C4 counterexample: for the limit `(3 requests / 2 seconds)` with a
stored TAT 2 seconds ahead of `now`, the code rejects and signals
`retry_after = int(2/3) = 0`, while the claimed
`ceil((tat - max_interval) - now) = ceil(2/3) = 1`; so the signalled
value is neither the ceiling nor `>= 1`. -/
theorem retry_after_not_ceil_cex :
    checkRetry [("K", 2)] "K" ⟨3, 2, none, none⟩ 0 = some 0
    ∧ ⌈((2 : ℚ) - (2 - 2 / 3)) - 0⌉ = 1 ∧ ¬(1 ≤ (0 : ℤ)) := by
  refine ⟨?_, ?_, by decide⟩
  · norm_num [checkRetry, Store.get, RateLimit.inverse, List.lookup, pyInt, Rat.floor]
  · rw [Int.ceil_eq_iff]
    norm_num

/-- C4 amended: on every rejection the signalled value is the Python
`int()` truncation (= floor, the argument being positive) of
`(tat - max_interval) - now`, and it is at least 0 (not 1). -/
theorem retry_after_trunc_nonneg (st : Store) (key : String) (rl : RateLimit)
    (now : ℚ) (r : ℤ) (h : checkRetry st key rl now = some r) :
    r = pyInt ((max (st.get key now) now - (rl.period - rl.period / rl.count)) - now)
    ∧ 0 ≤ r := by
  rw [checkRetry] at h
  by_cases hc : max (st.get key now) now - now > rl.period - rl.inverse
  · rw [if_pos hc, Option.some_inj] at h
    subst h
    constructor
    · have : max (st.get key now) now - (rl.period - rl.inverse) - now
          = max (st.get key now) now - (rl.period - rl.period / rl.count) - now := by
        rw [RateLimit.inverse]
      rw [← this]
    · refine pyInt_nonneg ?_
      have := sub_pos.mpr hc
      linarith
  · rw [if_neg hc] at h
    exact absurd h (by simp)

/-- Witness for `retry_after_trunc_nonneg` at the limit
`(1 request / 2 seconds)` with stored TAT 2 ahead of `now = 0`. -/
theorem retry_after_trunc_nonneg_witness :
    (2 : ℤ) = pyInt ((max (Store.get [("K", 2)] "K" 0) 0 - ((2 : ℚ) - 2 / 1)) - 0)
    ∧ (0 : ℤ) ≤ 2 :=
  retry_after_trunc_nonneg [("K", 2)] "K" ⟨1, 2, none, none⟩ 0 2 (by
    norm_num [checkRetry, Store.get, RateLimit.inverse, List.lookup, pyInt, Rat.floor])

/-! ## C2: rejection atomicity of the before-request hook -/

lemma raiseOnRejection_eq_none_iff (l : Limiter) (st : Store) (e : Option String)
    (now : ℚ) : ∀ rls : List RateLimit,
    (raiseOnRejection l st e rls now = none ↔
      ∀ rl ∈ rls, checkRetry st (createKeyFull l e rl) rl now = none)
  | [] => by simp [raiseOnRejection]
  | rl :: rest => by
    rw [raiseOnRejection]
    cases h : checkRetry st (createKeyFull l e rl) rl now with
    | none =>
      simp only [h]
      rw [raiseOnRejection_eq_none_iff l st e now rest]
      constructor
      · intro hall rl' hmem
        rcases List.mem_cons.mp hmem with heq | hmem'
        · subst heq; exact h
        · exact hall rl' hmem'
      · intro hall rl' hmem'
        exact hall rl' (List.mem_cons_of_mem rl hmem')
    | some r =>
      simp only [h]
      constructor
      · intro habs; exact absurd habs (by simp)
      · intro hall
        exact absurd (hall rl (List.mem_cons_self rl rest)) (by simp [h])

lemma raiseOnRejection_first (l : Limiter) (st : Store) (e : Option String)
    (now : ℚ) (rl : RateLimit) (rls₂ : List RateLimit) (r : ℤ) :
    ∀ rls₁ : List RateLimit,
    (∀ rl' ∈ rls₁, checkRetry st (createKeyFull l e rl') rl' now = none) →
    checkRetry st (createKeyFull l e rl) rl now = some r →
    raiseOnRejection l st e (rls₁ ++ rl :: rls₂) now = some r
  | [], _, h2 => by rw [List.nil_append, raiseOnRejection, h2]
  | rl' :: rest, h1, h2 => by
    rw [List.cons_append, raiseOnRejection,
      h1 rl' (List.mem_cons_self rl' rest)]
    exact raiseOnRejection_first l st e now rl rls₂ r rest
      (fun x hx => h1 x (List.mem_cons_of_mem rl' hx)) h2

/-- C2: with rate limiting enabled and a resolvable view function, if
the effective (skip-filtered) limit list decomposes as
`passing ++ failing :: rest`, the hook raises the failing limit's
retry value and leaves the store untouched (no TAT changes at all);
and if every limit in the list passes, the hook commits every limit via
`updateLimits`. -/
theorem before_request_rejection_atomicity (l : Limiter) (st : Store)
    (e : Option String) (v : ViewFunc) (bp : Option BlueprintObj)
    (now1 now2 : ℚ) (hen : l.enabled = true) :
    (∀ rls₁ rl rls₂ r,
      (getLimitsForViewFunction l (some v) bp).1.filter (fun x => !shouldSkip l x)
        = rls₁ ++ rl :: rls₂ →
      (∀ rl' ∈ rls₁, checkRetry st (createKeyFull l e rl') rl' now1 = none) →
      checkRetry st (createKeyFull l e rl) rl now1 = some r →
      beforeRequest l st e (some v) bp now1 now2
        = (some r, st, (getLimitsForViewFunction l (some v) bp).2))
    ∧ ((∀ rl ∈ (getLimitsForViewFunction l (some v) bp).1.filter
          (fun x => !shouldSkip l x),
        checkRetry st (createKeyFull l e rl) rl now1 = none) →
      beforeRequest l st e (some v) bp now1 now2
        = (none,
           updateLimits l st e
             ((getLimitsForViewFunction l (some v) bp).1.filter
               (fun x => !shouldSkip l x)) now2,
           (getLimitsForViewFunction l (some v) bp).2)) := by
  constructor
  · intro rls₁ rl rls₂ r hdec h1 h2
    have hraise : raiseOnRejection l st e
        ((getLimitsForViewFunction l (some v) bp).1.filter
          (fun x => !shouldSkip l x)) now1 = some r := by
      rw [hdec]
      exact raiseOnRejection_first l st e now1 rl rls₂ r rls₁ h1 h2
    rw [beforeRequest, hen]
    simp only [if_true, hraise]
  · intro hall
    have hraise : raiseOnRejection l st e
        ((getLimitsForViewFunction l (some v) bp).1.filter
          (fun x => !shouldSkip l x)) now1 = none :=
      (raiseOnRejection_eq_none_iff l st e now1 _).mpr hall
    rw [beforeRequest, hen]
    simp only [if_true, hraise]

/-- Witness for `before_request_rejection_atomicity`: one attached
limit `(1 / 2s)` whose stored TAT is 2 ahead rejects with
`retry_after = 2` and the store is unchanged. -/
theorem before_request_rejection_atomicity_witness :
    beforeRequest ⟨"app", "ip", none, [], true⟩
      (Store.set []
        (createKeyFull ⟨"app", "ip", none, [], true⟩ (some "E") ⟨1, 2, none, none⟩) 2)
      (some "E") (some ⟨false, some [⟨1, 2, none, none⟩]⟩) none 0 0
    = (some 2,
       Store.set []
         (createKeyFull ⟨"app", "ip", none, [], true⟩ (some "E") ⟨1, 2, none, none⟩) 2,
       some ⟨false, some [⟨1, 2, none, none⟩]⟩) := by
  have h := before_request_rejection_atomicity ⟨"app", "ip", none, [], true⟩
    (Store.set []
      (createKeyFull ⟨"app", "ip", none, [], true⟩ (some "E") ⟨1, 2, none, none⟩) 2)
    (some "E") ⟨false, some [⟨1, 2, none, none⟩]⟩ none 0 0 rfl
  have h2 := h.1 [] ⟨1, 2, none, none⟩ [] 2 rfl (by simp)
    (by norm_num [checkRetry, Store.get, Store.set, RateLimit.inverse, List.lookup,
          pyInt, Rat.floor])
  rw [h2]
  rfl

/-! ## C3: limit resolution is not read-only -/

/-- C3 (code bug, evaluated at the failing input): with one limit
attached to the handler and one default limit, resolving once returns
`[attached, default]` but mutates the handler's attached list in place
(Python `getattr` returns the attached list object and `extend`
mutates it); resolving again returns `[attached, default, default]`,
so resolution is neither read-only nor repeatable. -/
theorem resolution_mutates_attachments :
    (getLimitsForViewFunction ⟨"app", "ip", none, [⟨10, 20, none, none⟩], true⟩
        (some ⟨false, some [⟨1, 2, none, none⟩]⟩) none).1
      = [⟨1, 2, none, none⟩, ⟨10, 20, none, none⟩]
    ∧ (getLimitsForViewFunction ⟨"app", "ip", none, [⟨10, 20, none, none⟩], true⟩
        ((getLimitsForViewFunction ⟨"app", "ip", none, [⟨10, 20, none, none⟩], true⟩
            (some ⟨false, some [⟨1, 2, none, none⟩]⟩) none).2) none).1
      = [⟨1, 2, none, none⟩, ⟨10, 20, none, none⟩, ⟨10, 20, none, none⟩]
    ∧ (getLimitsForViewFunction ⟨"app", "ip", none, [⟨10, 20, none, none⟩], true⟩
        (some ⟨false, some [⟨1, 2, none, none⟩]⟩) none).2
      ≠ some ⟨false, some [⟨1, 2, none, none⟩]⟩ := by
  refine ⟨rfl, rfl, ?_⟩
  simp [getLimitsForViewFunction]

/-! ## C5: post-phase RateLimit headers -/

/-- C5 counterexample: for the limit `(3 requests / 2 seconds)` after
one commit, `separation = 2/3` and the code sets
`RateLimit-Reset = int(2/3) = 0`, while the claimed
`ceil(separation) = 1`. -/
theorem after_request_reset_not_ceil_cex :
    (afterRequest ⟨"app", "ip", none, [], true⟩
        (commitOne []
          (createKeyFull ⟨"app", "ip", none, [], true⟩ (some "E") ⟨3, 2, none, none⟩)
          ⟨3, 2, none, none⟩ 0)
        (some "E") (some ⟨false, some [⟨3, 2, none, none⟩]⟩) none 0).1
      = some (3, 2, 0)
    ∧ ⌈(2 : ℚ) / 3⌉ = 1 ∧ (0 : ℤ) ≠ 1 := by
  refine ⟨?_, ?_, by decide⟩
  · norm_num [afterRequest, minByPeriod, getLimitsForViewFunction, bpLimits,
      commitOne, List.foldl, Store.get, Store.set, RateLimit.inverse, List.lookup,
      pyInt, Rat.floor]
  · rw [Int.ceil_eq_iff]
    norm_num

/-- C5 amended: with limiting enabled, whenever the resolved limit list
is non-empty the response headers are
`(count, int((period - separation) / inverse), int(separation))` for
the smallest-period limit (`int` = truncation, not `ceil` for Reset);
in particular the spec's scenario holds: limit `(1 / 2s)`, first
request at `t = 0` on a fresh store yields `Limit=1, Remaining=0,
Reset=2`. -/
theorem after_request_metrics (l : Limiter) (st : Store) (e : Option String)
    (vf : Option ViewFunc) (bp : Option BlueprintObj) (now : ℚ) (m : RateLimit)
    (hen : l.enabled = true)
    (hm : minByPeriod (getLimitsForViewFunction l vf bp).1 = some m) :
    ((afterRequest l st e vf bp now).1
      = some (m.count,
          pyInt ((m.period - (max (st.get (createKeyFull l e m) now) now - now))
            / (m.period / m.count)),
          pyInt (max (st.get (createKeyFull l e m) now) now - now)))
    ∧ (afterRequest ⟨"app", "ip", none, [], true⟩
        (beforeRequest ⟨"app", "ip", none, [], true⟩ []
          (some "E") (some ⟨false, some [⟨1, 2, none, none⟩]⟩) none 0 0).2.1
        (some "E")
        (beforeRequest ⟨"app", "ip", none, [], true⟩ []
          (some "E") (some ⟨false, some [⟨1, 2, none, none⟩]⟩) none 0 0).2.2
        none 0).1
      = some (1, 0, 2) := by
  constructor
  · rw [afterRequest, hen]
    simp only [if_true, hm, RateLimit.inverse]
  · norm_num [afterRequest, beforeRequest, raiseOnRejection, updateLimits,
      minByPeriod, getLimitsForViewFunction, bpLimits, checkRetry, commitOne,
      shouldSkip, List.foldl, Store.get, Store.set, RateLimit.inverse,
      List.lookup, List.filter, pyInt, Rat.floor]

/-- Witness for `after_request_metrics`: the `(3 / 2s)` limit with an
empty store gives headers `(3, 3, 0)`. -/
theorem after_request_metrics_witness :
    ((afterRequest ⟨"app", "ip", none, [], true⟩ [] (some "E")
        (some ⟨false, some [⟨3, 2, none, none⟩]⟩) none 0).1
      = some ((⟨3, 2, none, none⟩ : RateLimit).count,
          pyInt (((⟨3, 2, none, none⟩ : RateLimit).period
              - (max (Store.get [] (createKeyFull ⟨"app", "ip", none, [], true⟩
                  (some "E") ⟨3, 2, none, none⟩) 0) 0 - 0))
            / ((⟨3, 2, none, none⟩ : RateLimit).period
                / (⟨3, 2, none, none⟩ : RateLimit).count)),
          pyInt (max (Store.get [] (createKeyFull ⟨"app", "ip", none, [], true⟩
              (some "E") ⟨3, 2, none, none⟩) 0) 0 - 0)))
    ∧ (afterRequest ⟨"app", "ip", none, [], true⟩
        (beforeRequest ⟨"app", "ip", none, [], true⟩ []
          (some "E") (some ⟨false, some [⟨1, 2, none, none⟩]⟩) none 0 0).2.1
        (some "E")
        (beforeRequest ⟨"app", "ip", none, [], true⟩ []
          (some "E") (some ⟨false, some [⟨1, 2, none, none⟩]⟩) none 0 0).2.2
        none 0).1
      = some (1, 0, 2) :=
  after_request_metrics ⟨"app", "ip", none, [], true⟩ [] (some "E")
    (some ⟨false, some [⟨3, 2, none, none⟩]⟩) none 0 ⟨3, 2, none, none⟩ rfl rfl

/-! ## C8: requests with no resolvable view function -/

/-- C8 counterexample: with a default limit configured and no view
function (`view_functions.get(endpoint)` is `None`),
`_after_request` still resolves the default limits and sets the
rate-limit headers, contradicting "no headers regardless of configured
default limits". -/
theorem no_view_func_headers_cex :
    (afterRequest ⟨"app", "ip", none, [⟨1, 2, none, none⟩], true⟩ []
        none none none 0).1 = some (1, 1, 0)
    ∧ (some ((1 : ℕ), (1 : ℤ), (0 : ℤ))) ≠ (none : Option (ℕ × ℤ × ℤ)) := by
  refine ⟨?_, by simp⟩
  norm_num [afterRequest, minByPeriod, getLimitsForViewFunction, bpLimits,
    List.foldl, Store.get, RateLimit.inverse, List.lookup, pyInt, Rat.floor]

/-- C8 amended: with no resolvable view function the pre-phase is a
complete no-op (no rejection, no store change), and the post-phase adds
no headers only when the blueprint and default limit lists are empty;
a configured default limit does produce headers. -/
theorem no_view_func_phases (l : Limiter) (st : Store) (e : Option String)
    (bp : Option BlueprintObj) (now1 now2 : ℚ) :
    beforeRequest l st e none bp now1 now2 = (none, st, none)
    ∧ (l.defaultLimits = [] → bp = none →
        (afterRequest l st e none bp now1).1 = none) := by
  constructor
  · rw [beforeRequest]
    cases hl : l.enabled <;> simp
  · intro hd hbp
    subst hbp
    rw [afterRequest]
    cases hl : l.enabled <;> simp [getLimitsForViewFunction, bpLimits, hd, minByPeriod]

/-- Witness for `no_view_func_phases` with no default limits. -/
theorem no_view_func_phases_witness :
    beforeRequest ⟨"app", "ip", none, [], true⟩ [] (some "E") none none 0 0
      = (none, [], none)
    ∧ (afterRequest ⟨"app", "ip", none, [], true⟩ [] (some "E") none none 0).1
      = none :=
  ⟨(no_view_func_phases ⟨"app", "ip", none, [], true⟩ [] (some "E") none 0 0).1,
   (no_view_func_phases ⟨"app", "ip", none, [], true⟩ [] (some "E") none 0 0).2 rfl rfl⟩

/-! ## C6: admission bounds -/

/-- `k` successive admitted-and-committed requests for one key at one
instant, starting from the given store. -/
def iterCommit (st : Store) (key : String) (rl : RateLimit) (now : ℚ) : ℕ → Store
  | 0 => st
  | k + 1 => commitOne (iterCommit st key rl now k) key rl now

lemma iterCommit_get (key : String) (rl : RateLimit) (now : ℚ)
    (hinv : 0 ≤ rl.inverse) :
    ∀ k : ℕ, (iterCommit [] key rl now k).get key now = now + k * rl.inverse
  | 0 => by simp [iterCommit, Store.get, List.lookup]
  | k + 1 => by
    have hk : (0 : ℚ) ≤ k * rl.inverse :=
      mul_nonneg (by positivity) hinv
    rw [iterCommit, commitOne, Store.get_set_self,
      iterCommit_get key rl now hinv k,
      max_eq_left (le_add_of_nonneg_right hk),
      max_eq_left (le_add_of_nonneg_right hk)]
    push_cast
    ring

lemma iterCommit_get_pos (key : String) (rl : RateLimit) (now d : ℚ)
    (hinv : 0 ≤ rl.inverse) (k : ℕ) (hk : 0 < k) :
    (iterCommit [] key rl now k).get key d = now + k * rl.inverse := by
  obtain ⟨m, rfl⟩ := Nat.exists_eq_succ_of_ne_zero (Nat.pos_iff_ne_zero.mp hk)
  have hm : (0 : ℚ) ≤ m * rl.inverse := mul_nonneg (by positivity) hinv
  rw [iterCommit, commitOne, Store.get_set_self,
    iterCommit_get key rl now hinv m,
    max_eq_left (le_add_of_nonneg_right hm),
    max_eq_left (le_add_of_nonneg_right hm)]
  push_cast
  ring

/-- C6 counterexample: for `count = 2`, `period = 10`, two requests at
`t = 0` are admitted (theoretical TAT reaches 10), and a third request
at `t = 5` — within the window `[0, 10]` of length `period` containing
all three — is ALSO admitted (`checkRetry = none`), because GCRA with
`max_interval = period - inverse` tolerates a burst plus refill inside
one window.  The claim demands rejection of that third request. -/
theorem window_bound_cex :
    checkRetry (iterCommit [] "K" ⟨2, 10, none, none⟩ 0 0) "K"
      ⟨2, 10, none, none⟩ 0 = none
    ∧ checkRetry (iterCommit [] "K" ⟨2, 10, none, none⟩ 0 1) "K"
      ⟨2, 10, none, none⟩ 0 = none
    ∧ checkRetry (iterCommit [] "K" ⟨2, 10, none, none⟩ 0 2) "K"
      ⟨2, 10, none, none⟩ 5 = none
    ∧ (0 : ℚ) ≤ 5 ∧ (5 : ℚ) - 0 ≤ 10 := by
  refine ⟨?_, ?_, ?_, by norm_num, by norm_num⟩ <;>
    norm_num [checkRetry, iterCommit, commitOne, Store.get, Store.set,
      RateLimit.inverse, List.lookup, pyInt]

/-- C6 amended: from a fresh key, `count` requests at a single instant
`t` are all admitted; the `(count+1)`-th request at `t` is rejected
with `retry_after = int(period/count)`; and any later instant `t'` at
which the key is admitted again satisfies `t' - t ≥ retry_after`. -/
theorem gcra_burst_bound (count : ℕ) (period t : ℚ)
    (hc : 0 < count) (hp : 0 < period) :
    (∀ k : ℕ, k < count →
      checkRetry (iterCommit [] "K" ⟨count, period, none, none⟩ t k) "K"
        ⟨count, period, none, none⟩ t = none)
    ∧ checkRetry (iterCommit [] "K" ⟨count, period, none, none⟩ t count) "K"
        ⟨count, period, none, none⟩ t
      = some (pyInt (period / count))
    ∧ (∀ t' : ℚ, t ≤ t' →
        checkRetry (iterCommit [] "K" ⟨count, period, none, none⟩ t count) "K"
          ⟨count, period, none, none⟩ t' = none →
        ((pyInt (period / count) : ℚ)) ≤ t' - t) := by
  have hcq : (0 : ℚ) < count := by exact_mod_cast hc
  have hinv : (0 : ℚ) < period / count := div_pos hp hcq
  have hmul : (count : ℚ) * (period / count) = period :=
    mul_div_cancel₀ period (ne_of_gt hcq)
  have hinverse : (⟨count, period, none, none⟩ : RateLimit).inverse = period / count := rfl
  refine ⟨?_, ?_, ?_⟩
  · intro k hk
    have hget := iterCommit_get "K" ⟨count, period, none, none⟩ t (le_of_lt hinv) k
    rw [hinverse] at hget
    have htat : max ((iterCommit [] "K" ⟨count, period, none, none⟩ t k).get "K" t) t
        = t + k * (period / count) := by
      rw [hget]
      exact max_eq_left (le_add_of_nonneg_right (mul_nonneg (by positivity) hinv.le))
    have hsep : ¬(max ((iterCommit [] "K" ⟨count, period, none, none⟩ t k).get "K" t) t - t
        > period - period / count) := by
      rw [htat]
      have hk1 : ((k : ℚ) + 1) ≤ count := by exact_mod_cast hk
      have : (k : ℚ) * (period / count) ≤ period - period / count := by
        have := mul_le_mul_of_nonneg_right hk1 hinv.le
        rw [add_mul, one_mul, hmul] at this
        linarith
      linarith
    rw [checkRetry, hinverse, if_neg (by simpa using hsep)]
  · have hget := iterCommit_get "K" ⟨count, period, none, none⟩ t (le_of_lt hinv) count
    rw [hinverse, hmul] at hget
    have htat : max ((iterCommit [] "K" ⟨count, period, none, none⟩ t count).get "K" t) t
        = t + period := by
      rw [hget]
      exact max_eq_left (le_add_of_nonneg_right hp.le)
    rw [checkRetry, hinverse, htat, if_pos (by linarith)]
    congr 1
    congr 1
    ring
  · intro t' ht hpass
    have hget := iterCommit_get_pos "K" ⟨count, period, none, none⟩ t t'
      (le_of_lt hinv) count hc
    rw [hinverse, hmul] at hget
    have hretry : (pyInt (period / count) : ℚ) ≤ period / count :=
      pyInt_le_self hinv.le
    have hinvper : period / count ≤ period := by
      have h1 : (1 : ℚ) ≤ count := by exact_mod_cast hc
      calc period / count ≤ period / 1 := by
            exact div_le_div_of_nonneg_left hp.le one_pos h1
        _ = period := div_one period
    rcases le_or_lt (t + period) t' with hle | hlt
    · linarith
    · have htat : max ((iterCommit [] "K" ⟨count, period, none, none⟩ t count).get "K" t') t'
          = t + period := by
        rw [hget]
        exact max_eq_left (le_of_lt hlt)
      rw [checkRetry, hinverse] at hpass
      by_cases hrej : max ((iterCommit [] "K" ⟨count, period, none, none⟩ t count).get "K" t') t' - t'
          > period - period / count
      · rw [if_pos (by simpa using hrej)] at hpass
        exact absurd hpass (by simp)
      · rw [htat] at hrej
        push_neg at hrej
        linarith

/-- Witness for `gcra_burst_bound`: `count = 1`, `period = 2`,
burst from a fresh key at `t = 0`. -/
theorem gcra_burst_bound_witness :
    checkRetry (iterCommit [] "K" ⟨1, 2, none, none⟩ 0 0) "K"
      ⟨1, 2, none, none⟩ 0 = none
    ∧ checkRetry (iterCommit [] "K" ⟨1, 2, none, none⟩ 0 1) "K"
        ⟨1, 2, none, none⟩ 0
      = some (pyInt (2 / ((1 : ℕ) : ℚ))) :=
  ⟨(gcra_burst_bound 1 2 0 (by norm_num) (by norm_num)).1 0 (by norm_num),
   (gcra_burst_bound 1 2 0 (by norm_num) (by norm_num)).2.1⟩

/-! ## C7: the composed store key -/

lemma append_dash_inj : ∀ (a a' b b' : List Char), '-' ∉ a → '-' ∉ a' →
    a ++ '-' :: b = a' ++ '-' :: b' → a = a' ∧ b = b'
  | [], [], b, b', _, _, h => by
    refine ⟨rfl, ?_⟩
    simpa using h
  | [], c' :: a', b, b', _, ha', h => by
    simp only [List.nil_append, List.cons_append, List.cons.injEq] at h
    have : '-' ∈ c' :: a' := by
      rw [← h.1]
      exact List.mem_cons_self '-' a'
    exact absurd this ha'
  | c :: a, [], b, b', ha, _, h => by
    simp only [List.cons_append, List.nil_append, List.cons.injEq] at h
    have : '-' ∈ c :: a := by
      rw [h.1]
      exact List.mem_cons_self '-' a
    exact absurd this ha
  | c :: a, c' :: a', b, b', ha, ha', h => by
    simp only [List.cons_append, List.cons.injEq] at h
    have ih := append_dash_inj a a' b b'
      (fun hm => ha (List.mem_cons_of_mem c hm))
      (fun hm => ha' (List.mem_cons_of_mem c' hm)) h.2
    exact ⟨by rw [h.1, ih.1], ih.2⟩

/-- C7 counterexample: two distinct (application, endpoint) component
pairs compose to the very same store key, because the `"-"` separator
also occurs inside components; so equality of composed keys does not
imply that all four components match. -/
theorem create_key_collision_cex :
    createKey "a-b" "c" "1-2.0" "k" = createKey "a" "b-c" "1-2.0" "k"
    ∧ ("a-b", "c") ≠ (("a" : String), ("b-c" : String)) := by
  exact ⟨by decide, by decide⟩

/-- C7 amended: the composed key is a pure function of the four
identifiers (hence deterministic and stable), and it is injective in
all components — equal keys iff equal components — provided the
application name, endpoint, and the two halves of the limit identity
`f"{count}-{period}"` contain no `"-"`; without that proviso distinct
tuples can collide. -/
theorem create_key_inj_of_no_dash (a e lc lp c a' e' lc' lp' c' : String)
    (ha : '-' ∉ a.data) (he : '-' ∉ e.data) (hlc : '-' ∉ lc.data)
    (hlp : '-' ∉ lp.data) (ha' : '-' ∉ a'.data) (he' : '-' ∉ e'.data)
    (hlc' : '-' ∉ lc'.data) (hlp' : '-' ∉ lp'.data) :
    createKey a e (lc ++ "-" ++ lp) c = createKey a' e' (lc' ++ "-" ++ lp') c'
      ↔ a = a' ∧ e = e' ∧ lc = lc' ∧ lp = lp' ∧ c = c' := by
  constructor
  · intro h
    rw [String.ext_iff] at h
    rw [createKey, createKey] at h
    simp only [String.data_append] at h
    simp only [List.append_assoc, List.singleton_append, List.cons_append] at h
    obtain ⟨h1, hrest⟩ := append_dash_inj _ _ _ _ ha ha' h
    obtain ⟨h2, hrest2⟩ := append_dash_inj _ _ _ _ he he' hrest
    obtain ⟨h3, hrest3⟩ := append_dash_inj _ _ _ _ hlc hlc' hrest2
    obtain ⟨h4, h5⟩ := append_dash_inj _ _ _ _ hlp hlp' hrest3
    exact ⟨String.ext h1, String.ext h2, String.ext h3, String.ext h4, String.ext h5⟩
  · rintro ⟨rfl, rfl, rfl, rfl, rfl⟩
    rfl

/-- Witness for `create_key_inj_of_no_dash` at concrete dash-free
components. -/
theorem create_key_inj_of_no_dash_witness :
    createKey "app" "ep" ("1" ++ "-" ++ "2.0") "cl"
        = createKey "app" "ep" ("1" ++ "-" ++ "2.0") "cl"
      ↔ ("app" : String) = "app" ∧ ("ep" : String) = "ep"
          ∧ ("1" : String) = "1" ∧ ("2.0" : String) = "2.0"
          ∧ ("cl" : String) = "cl" :=
  create_key_inj_of_no_dash "app" "ep" "1" "2.0" "cl" "app" "ep" "1" "2.0" "cl"
    (by decide) (by decide) (by decide) (by decide) (by decide) (by decide)
    (by decide) (by decide)

/-! ## C9: attachment-time validation -/

/-- C9 counterexample: calling `rate_limit(5)` — a `limit` with no
`period` — is a missing limit specification, yet it raises no error at
attachment time (it constructs `RateLimit(5, None, ...)`); the `None`
period then fails only when first used at request time (`inverse`
evaluates `None.total_seconds()`), contradicting "no
missing-or-conflicting limit specification ever surfaces first at
request time". -/
theorem rate_limit_partial_pair_cex :
    rateLimitArgs (some 5) none none none none
      = Except.ok [{ count := some 5, period := none, keyFunction := none,
                     skipFunction := none }]
    ∧ rawInverse { count := some 5, period := none, keyFunction := none,
                   skipFunction := none } = none :=
  ⟨rfl, rfl⟩

/-- C9 amended: the validation shared by `rate_limit` and
`limit_blueprint` errs at attachment time exactly when a `(limit,
period)` argument is present together with `limits`, or when all three
are absent; a fully-specified pair attaches the single constructed
limit, whose request-time `inverse` is well-defined.  A
partially-specified pair (only `limit` or only `period`) is accepted at
attachment time and its `inverse` fails only at request time. -/
theorem rate_limit_args_validation (limit : Option ℕ) (period : Option ℚ)
    (keyF : Option String) (skipF : Option Bool)
    (limits : Option (List RawRateLimit)) :
    ((∃ msg, rateLimitArgs limit period keyF skipF limits = Except.error msg) ↔
      (((limit.isSome || period.isSome) && limits.isSome)
        || (!(limit.isSome || period.isSome) && !limits.isSome)) = true)
    ∧ (∀ c p, rateLimitArgs (some c) (some p) keyF skipF none
        = Except.ok [{ count := some c, period := some p, keyFunction := keyF,
                       skipFunction := skipF }]
      ∧ rawInverse { count := some c, period := some p, keyFunction := keyF,
                     skipFunction := skipF } = some (p / c)) := by
  constructor
  · cases limit <;> cases period <;> cases limits <;>
      simp [rateLimitArgs]
  · intro c p
    exact ⟨rfl, rfl⟩

/-- Witness for `rate_limit_args_validation` at
`rate_limit(1, timedelta(seconds=2))`: a fully-specified pair attaches
one well-formed limit. -/
theorem rate_limit_args_validation_witness :
    rateLimitArgs (some 1) (some 2) none none none
      = Except.ok [{ count := some 1, period := some 2, keyFunction := none,
                     skipFunction := none }]
    ∧ rawInverse { count := some 1, period := some 2, keyFunction := none,
                   skipFunction := none } = some ((2 : ℚ) / ((1 : ℕ) : ℚ)) :=
  (rate_limit_args_validation (some 1) (some 2) none none none).2 1 2

/-! ## C10: decorator stacking accumulates -/

lemma decorator_foldl_acc :
    ∀ (lists : List (List RateLimit)) (v : ViewFunc) (acc : List RateLimit),
    v.limits = some acc →
    lists.foldl (fun w ls => rateLimitDecorator ls w) v
      = ⟨v.exempt, some (acc ++ lists.flatten)⟩
  | [], v, acc, h => by
    cases v
    simp_all [List.flatten, rateLimitDecorator]
  | L :: rest, v, acc, h => by
    rw [List.foldl_cons]
    have hstep : rateLimitDecorator L v = ⟨v.exempt, some (acc ++ L)⟩ := by
      cases v
      simp_all [rateLimitDecorator]
    rw [hstep,
      decorator_foldl_acc rest ⟨v.exempt, some (acc ++ L)⟩ (acc ++ L) rfl]
    simp [List.flatten, List.append_assoc]

/-- C10: stacking the `rate_limit` decorator `n ≥ 1` times on a handler
with no prior attachment accumulates: the attached attribute becomes
the concatenation of all the decorated limit lists (no replacement, no
error), and every limit of every list appears in the per-request
resolved limit set. -/
theorem decorator_stacking (L0 : List RateLimit) (rest : List (List RateLimit))
    (v0 : ViewFunc) (l : Limiter) (bp : Option BlueprintObj)
    (h0 : v0.limits = none) (hex : v0.exempt = false) :
    ((L0 :: rest).foldl (fun w ls => rateLimitDecorator ls w) v0).limits
      = some ((L0 :: rest).flatten)
    ∧ ∀ rl ∈ (L0 :: rest).flatten,
        rl ∈ (getLimitsForViewFunction l
          (some ((L0 :: rest).foldl (fun w ls => rateLimitDecorator ls w) v0))
          bp).1 := by
  have hfold : (L0 :: rest).foldl (fun w ls => rateLimitDecorator ls w) v0
      = ⟨false, some ((L0 :: rest).flatten)⟩ := by
    rw [List.foldl_cons]
    have hstep : rateLimitDecorator L0 v0 = ⟨false, some L0⟩ := by
      cases v0
      simp_all [rateLimitDecorator]
    rw [hstep, decorator_foldl_acc rest ⟨false, some L0⟩ L0 rfl]
    simp [List.flatten]
  constructor
  · rw [hfold]
  · intro rl hrl
    rw [hfold]
    simp only [getLimitsForViewFunction, Bool.false_eq_true, if_false]
    exact List.mem_append_left _ (List.mem_append_left _ hrl)

/-- Witness for `decorator_stacking`: two stacked decorators with one
limit each; the first decorated limit is in the resolved set. -/
theorem decorator_stacking_witness :
    (([⟨1, 2, none, none⟩] :: [[⟨10, 20, none, none⟩]]).foldl
        (fun w ls => rateLimitDecorator ls w) ⟨false, none⟩).limits
      = some (([⟨1, 2, none, none⟩] :: [[⟨10, 20, none, none⟩]]).flatten)
    ∧ (⟨1, 2, none, none⟩ : RateLimit)
        ∈ (getLimitsForViewFunction ⟨"app", "ip", none, [], true⟩
          (some (([⟨1, 2, none, none⟩] :: [[⟨10, 20, none, none⟩]]).foldl
            (fun w ls => rateLimitDecorator ls w) ⟨false, none⟩))
          none).1 :=
  ⟨(decorator_stacking [⟨1, 2, none, none⟩] [[⟨10, 20, none, none⟩]]
      ⟨false, none⟩ ⟨"app", "ip", none, [], true⟩ none rfl rfl).1,
   (decorator_stacking [⟨1, 2, none, none⟩] [[⟨10, 20, none, none⟩]]
      ⟨false, none⟩ ⟨"app", "ip", none, [], true⟩ none rfl rfl).2
     ⟨1, 2, none, none⟩ (by simp)⟩

end QuartRateLimiter
